import Mathlib

/-!
Verification of the `limetr` nonlinear mixed-effects model core
(`src/limetr/__init__.py`) over a shallow embedding in Lean.

Observations are grouped: group `i : Fin m` has size `n i`; a single observation
is a dependent pair `⟨i, j⟩`.  The structured covariance is
`Σ = blockdiag_i (diag (V i) + Z i * diagonal γ * (Z i)ᵀ)` where `V = S ** 2`.
-/

open Matrix

noncomputable section

namespace LimeTrVerif

variable {m : ℕ} {n : Fin m → ℕ}

/-- Index of a single observation: its group and its position inside the group. -/
abbrev Obs (m : ℕ) (n : Fin m → ℕ) := (i : Fin m) × Fin (n i)

/-- Total number of observations, `N = sum(n)` in the source. -/
def Ntot (n : Fin m → ℕ) : ℕ := ∑ i, n i

/-- The observations of group `k`, as an equivalence with the subtype of `Obs`
whose first component is `k`. -/
def groupEquiv (k : Fin m) : Fin (n k) ≃ { c : Obs m n // c.1 = k } where
  toFun j := ⟨⟨k, j⟩, rfl⟩
  invFun c := c.2 ▸ c.1.2
  left_inv j := rfl
  right_inv c := by
    obtain ⟨⟨k', j⟩, hk⟩ := c
    subst hk
    rfl

variable {kg : ℕ}

/-- One diagonal block `Σᵢ = diag(Vᵢ) + Zᵢ · diag(γ) · Zᵢᵀ` of the structured
covariance (spec §4.1). -/
def covBlock (V : ∀ i, Fin (n i) → ℝ) (Z : ∀ i, Fin (n i) → Fin kg → ℝ)
    (γ : Fin kg → ℝ) (i : Fin m) : Matrix (Fin (n i)) (Fin (n i)) ℝ :=
  Matrix.diagonal (V i) + Matrix.of (Z i) * Matrix.diagonal γ * (Matrix.of (Z i))ᵀ

/-- The full structured covariance `Σ = blockdiag_i Σᵢ` (spec §4.1). -/
def covMat (V : ∀ i, Fin (n i) → ℝ) (Z : ∀ i, Fin (n i) → Fin kg → ℝ)
    (γ : Fin kg → ℝ) : Matrix (Obs m n) (Obs m n) ℝ :=
  blockDiagonal' (covBlock V Z γ)

/-- Modelled from the spec: `VarMat` lives in `limetr.utils`, which is not under `src/`.
Contract (§4.1): `logDet()` returns `Σᵢ log det(Σᵢ)`, the log-determinant of the
structured covariance, computed block by block. -/
def logDet (V : ∀ i, Fin (n i) → ℝ) (Z : ∀ i, Fin (n i) → Fin kg → ℝ)
    (γ : Fin kg → ℝ) : ℝ :=
  ∑ i, Real.log (covBlock V Z γ i).det

/-- Modelled from the spec: `VarMat.invDot` is in `limetr.utils`, not under `src/`.
Contract (§4.1): `invDot(R) → Σ⁻¹R` for a vector `R`, computed block by block. -/
def invDot (V : ∀ i, Fin (n i) → ℝ) (Z : ∀ i, Fin (n i) → Fin kg → ℝ)
    (γ : Fin kg → ℝ) (R : ∀ i, Fin (n i) → ℝ) : ∀ i, Fin (n i) → ℝ :=
  fun i => (covBlock V Z γ i)⁻¹ *ᵥ R i

/-- Modelled from the spec: `VarMat.invDot` applied to a matrix argument
(the `D.invDot(Z)` call in `gradient`), block by block. -/
def invDotMat (V : ∀ i, Fin (n i) → ℝ) (Z : ∀ i, Fin (n i) → Fin kg → ℝ)
    (γ : Fin kg → ℝ) (A : ∀ i, Fin (n i) → Fin kg → ℝ) :
    ∀ i, Fin (n i) → Fin kg → ℝ :=
  fun i j l => ((covBlock V Z γ i)⁻¹ * Matrix.of (A i)) j l

/-- Regularizer configuration `(H, JH, h)`: `h` is a `2 × num_regularizer` array,
row 0 the targets `h[0]`, row 1 the scales `h[1]`. -/
structure Reg (k : ℕ) where
  num_regularizer : ℕ
  H : (Fin k → ℝ) → Fin num_regularizer → ℝ
  JH : (Fin k → ℝ) → Fin num_regularizer → Fin k → ℝ
  h0 : Fin num_regularizer → ℝ
  h1 : Fin num_regularizer → ℝ

/-- The `LimeTr` model state (source lines 9-91): problem data, optional regularizer
and Gaussian prior, the trimming configuration, and the mutable fields
`w`, `beta`, `gamma`, `soln`, `info`.  `ι` is the (external) solver-info type. -/
structure LimeTr (m : ℕ) (n : Fin m → ℕ) (k_beta k_gamma : ℕ) (ι : Type) where
  Y : ∀ i, Fin (n i) → ℝ
  S : ∀ i, Fin (n i) → ℝ
  Z : ∀ i, Fin (n i) → Fin k_gamma → ℝ
  F : (Fin k_beta → ℝ) → ∀ i, Fin (n i) → ℝ
  JF : (Fin k_beta → ℝ) → ∀ i, Fin (n i) → Fin k_beta → ℝ
  reg : Option (Reg (k_beta + k_gamma))
  gprior : Option ((Fin (k_beta + k_gamma) → ℝ) × (Fin (k_beta + k_gamma) → ℝ))
  inlier_percentage : ℝ
  num_inliers : ℝ
  w : ∀ i, Fin (n i) → ℝ
  beta : Fin k_beta → ℝ
  gamma : Fin k_gamma → ℝ
  soln : Option (Fin (k_beta + k_gamma) → ℝ)
  info : Option ι

/-- `x[idx_beta]`: the first `k_beta` entries of the packed parameter vector. -/
def xbeta {kb kg : ℕ} (x : Fin (kb + kg) → ℝ) : Fin kb → ℝ :=
  fun j => x (Fin.castAdd kg j)

/-- `x[idx_gamma]`: the last `k_gamma` entries of the packed parameter vector. -/
def xgamma {kb kg : ℕ} (x : Fin (kb + kg) → ℝ) : Fin kg → ℝ :=
  fun l => x (Fin.natAdd kb l)

namespace LimeTr

variable {kb : ℕ} {ι : Type} (self : LimeTr m n kb kg ι)

/-- `self.V = S ** 2` (source line 32). -/
def V : ∀ i, Fin (n i) → ℝ := fun i j => self.S i j ^ 2

/-- `self.use_trimming = (0.0 < inlier_percentage < 1.0)` (source line 78). -/
def use_trimming : Prop :=
  0 < self.inlier_percentage ∧ self.inlier_percentage < 1

instance : Decidable self.use_trimming :=
  inferInstanceAs (Decidable (0 < self.inlier_percentage ∧ self.inlier_percentage < 1))

/-- The response used by `objective`/`gradient`: `Y * sqrt(w)` when trimming is
active (source lines 121-133 and 178-192), `Y` otherwise. -/
def Yeff : ∀ i, Fin (n i) → ℝ :=
  if self.use_trimming then fun i j => self.Y i j * Real.sqrt (self.w i j) else self.Y

/-- The mean used by `objective`/`gradient`: `F(beta) * sqrt(w)` under trimming. -/
def Feff (beta : Fin kb → ℝ) : ∀ i, Fin (n i) → ℝ :=
  if self.use_trimming then fun i j => self.F beta i j * Real.sqrt (self.w i j)
  else self.F beta

/-- The Jacobian used by `gradient`: rows of `JF(beta)` scaled by `sqrt(w)` under
trimming (source line 183). -/
def JFeff (beta : Fin kb → ℝ) : ∀ i, Fin (n i) → Fin kb → ℝ :=
  if self.use_trimming then fun i j a => self.JF beta i j a * Real.sqrt (self.w i j)
  else self.JF beta

/-- The random-effects design used by `objective`/`gradient`: rows of `Z` scaled by
`sqrt(w)` under trimming. -/
def Zeff : ∀ i, Fin (n i) → Fin kg → ℝ :=
  if self.use_trimming then fun i j l => self.Z i j l * Real.sqrt (self.w i j) else self.Z

/-- The variances used by `objective`/`gradient`: `V ** w` elementwise under trimming. -/
def Veff : ∀ i, Fin (n i) → ℝ :=
  if self.use_trimming then fun i j => self.V i j ^ self.w i j else self.V

/-- `LimeTr.objective` (source lines 116-160), analytic path (`use_ad=False`). -/
def objective (x : Fin (kb + kg) → ℝ) : ℝ :=
  let beta := xbeta x
  let γ := xgamma x
  let R := fun i (j : Fin (n i)) => self.Yeff i j - self.Feff beta i j
  0.5 * (Ntot n : ℝ) * Real.log (2 * Real.pi)
    + 0.5 * logDet self.Veff self.Zeff γ
    + 0.5 * ∑ i, R i ⬝ᵥ invDot self.Veff self.Zeff γ R i
    + (match self.reg with
        | some r => 0.5 * ∑ l, ((r.H x l - r.h0 l) / r.h1 l) ^ 2
        | none => 0)
    + (match self.gprior with
        | some g => 0.5 * ∑ a, ((x a - g.1 a) / g.2 a) ^ 2
        | none => 0)

/-- `LimeTr.gradient` (source lines 162-218), analytic path (`use_ad=False`). -/
def gradient (x : Fin (kb + kg) → ℝ) : Fin (kb + kg) → ℝ :=
  let beta := xbeta x
  let γ := xgamma x
  let R := fun i (j : Fin (n i)) => self.Yeff i j - self.Feff beta i j
  let DR := invDot self.Veff self.Zeff γ R
  let DZ := invDotMat self.Veff self.Zeff γ self.Zeff
  let g_beta : Fin kb → ℝ := fun a => -∑ i, ∑ j, self.JFeff beta i j a * DR i j
  let g_gamma : Fin kg → ℝ := fun l =>
    0.5 * ∑ i, ∑ j, self.Zeff i j l * DZ i j l
      - 0.5 * ∑ i, (∑ j, DZ i j l * R i j) ^ 2
  fun a => Fin.append g_beta g_gamma a
    + (match self.reg with
        | some r => ∑ l, r.JH x l a * ((r.H x l - r.h0 l) / r.h1 l ^ 2)
        | none => 0)
    + (match self.gprior with
        | some g => (x a - g.1 a) / g.2 a ^ 2
        | none => 0)

/-- `LimeTr.objectiveTrimming` (source lines 220-229). -/
def objectiveTrimming (w : ∀ i, Fin (n i) → ℝ) : ℝ :=
  let t := fun i (j : Fin (n i)) => ∑ l, self.Z i j l ^ 2 * self.gamma l
  let r := fun i (j : Fin (n i)) => (self.Y i j - self.F self.beta i j) ^ 2
  let v := fun i (j : Fin (n i)) => self.V i j ^ w i j
  let d := fun i (j : Fin (n i)) => v i j + t i j * w i j
  0.5 * ∑ i, ∑ j, r i j * w i j / d i j
    + 0.5 * (Ntot n : ℝ) * Real.log (2 * Real.pi)
    + 0.5 * ∑ i, ∑ j, Real.log (d i j)

/-- `LimeTr.gradientTrimming` (source lines 231-251), analytic path (`use_ad=False`). -/
def gradientTrimming (w : ∀ i, Fin (n i) → ℝ) : ∀ i, Fin (n i) → ℝ :=
  let t := fun i (j : Fin (n i)) => ∑ l, self.Z i j l ^ 2 * self.gamma l
  let r := fun i (j : Fin (n i)) => (self.Y i j - self.F self.beta i j) ^ 2
  let v := fun i (j : Fin (n i)) => self.V i j ^ w i j
  let d := fun i (j : Fin (n i)) => v i j + t i j * w i j
  fun i j =>
    0.5 * r i j * v i j * (1 - Real.log (v i j)) / d i j ^ 2
      + 0.5 * (t i j + v i j * Real.log (self.V i j)) / d i j

/-- `LimeTr.optimize` (source lines 253-275).  Modelled from the spec: the call into
the external NLP solver (the `opt_problem.solve(x0)` step) is not under `src/`
(spec §6 treats the solver as an external black box returning a solution vector plus
status info).  Its outcome is the argument `res`: `some (soln, info)` models a
completed solve, after which lines 272-275 assign all four fields; `none` models a
failed call, in which case none of the assignments execute. -/
def optimize (res : Option ((Fin (kb + kg) → ℝ) × ι)) : LimeTr m n kb kg ι :=
  match res with
  | none => self
  | some r =>
    { self with
      soln := some r.1
      info := some r.2
      beta := xbeta r.1
      gamma := xgamma r.1 }

end LimeTr

open Classical in
/-- Modelled from the spec: `projCappedSimplex` lives in `limetr.utils`, not under
`src/`.  Contract (§4.3): the projection is `wᵢ = clip(vᵢ − λ, 0, 1)` for the unique
scalar `λ` solving `Σᵢ clip(vᵢ − λ, 0, 1) = target`; degenerate cases: `target ≤ 0`
returns all zeros, otherwise (no root, `target ≥ N`) all ones. -/
def projCappedSimplex (v : Obs m n → ℝ) (target : ℝ) : Obs m n → ℝ :=
  if hl : ∃ lam : ℝ, ∑ c : Obs m n, min 1 (max 0 (v c - lam)) = target then
    fun c => min 1 (max 0 (v c - Classical.choose hl))
  else if target ≤ 0 then fun _ => 0
  else fun _ => 1

namespace LimeTr

variable {kb : ℕ} {ι : Type} (self : LimeTr m n kb kg ι)

/-- One outer trimming iteration.  Modelled from the spec (§4.4): optimize `(beta,
gamma)` with `w` fixed via the external solver, then take a projected-gradient step on
`w` of size `outer_step_size` through the capped-simplex projector with target
`num_inliers`. -/
def trimStep (solver : ℕ → LimeTr m n kb kg ι → Option ((Fin (kb + kg) → ℝ) × ι))
    (inner_max_iter : ℕ) (outer_step_size : ℝ) : LimeTr m n kb kg ι :=
  let s1 := self.optimize (solver inner_max_iter self)
  let wproj := projCappedSimplex
    (fun c : Obs m n => s1.w c.1 c.2 - outer_step_size * s1.gradientTrimming s1.w c.1 c.2)
    s1.num_inliers
  { s1 with w := fun i j => wproj ⟨i, j⟩ }

end LimeTr

/-- Modelled from the spec: the body of the trimming loop in `fitModel` is absent from
`src/` (lines 292-293 set `num_iter = 0` and `err = outer_tol + 1.0`, then the method
ends; spec §9 records the loop as visibly incomplete and §4.4 gives the intended
design).  Iterate `trimStep` until the change in the trimming objective falls below
`outer_tol` or the iteration budget `outer_max_iter` is exhausted. -/
def fitLoop {kb : ℕ} {ι : Type}
    (solver : ℕ → LimeTr m n kb kg ι → Option ((Fin (kb + kg) → ℝ) × ι))
    (inner_max_iter : ℕ) (outer_step_size outer_tol : ℝ) :
    ℕ → LimeTr m n kb kg ι → LimeTr m n kb kg ι
  | 0, s => s
  | num_iter + 1, s =>
    let s2 := s.trimStep solver inner_max_iter outer_step_size
    if |s2.objectiveTrimming s2.w - s.objectiveTrimming s.w| < outer_tol then s2
    else fitLoop solver inner_max_iter outer_step_size outer_tol num_iter s2

namespace LimeTr

variable {kb : ℕ} {ι : Type} (self : LimeTr m n kb kg ι)

/-- `LimeTr.fitModel` (source lines 277-293): without trimming, a single `optimize`
call whose iteration budget is `inner_max_iter * outer_max_iter` (lines 285-290); with
trimming, the outer block-coordinate loop (modelled from the spec, see `fitLoop`). -/
def fitModel (solver : ℕ → LimeTr m n kb kg ι → Option ((Fin (kb + kg) → ℝ) × ι))
    (inner_max_iter outer_max_iter : ℕ) (outer_step_size outer_tol : ℝ) :
    LimeTr m n kb kg ι :=
  if self.use_trimming then
    fitLoop solver inner_max_iter outer_step_size outer_tol outer_max_iter self
  else self.optimize (solver (inner_max_iter * outer_max_iter) self)

end LimeTr

/-- `LimeTr.__init__` (source lines 9-91): stores the data, the optional regularizer
and Gaussian prior, sets `num_inliers = floor(inlier_percentage * N)` and
`w = repeat(num_inliers / N, N)` (lines 77-82), and initialises `beta = 0`,
`gamma = 0.01`, `soln = info = None` (lines 84-88). -/
def LimeTr.init {kb : ℕ} {ι : Type}
    (Y : ∀ i, Fin (n i) → ℝ) (S : ∀ i, Fin (n i) → ℝ)
    (Z : ∀ i, Fin (n i) → Fin kg → ℝ)
    (F : (Fin kb → ℝ) → ∀ i, Fin (n i) → ℝ)
    (JF : (Fin kb → ℝ) → ∀ i, Fin (n i) → Fin kb → ℝ)
    (reg : Option (Reg (kb + kg)))
    (gprior : Option ((Fin (kb + kg) → ℝ) × (Fin (kb + kg) → ℝ)))
    (inlier_percentage : ℝ) : LimeTr m n kb kg ι :=
  { Y := Y
    S := S
    Z := Z
    F := F
    JF := JF
    reg := reg
    gprior := gprior
    inlier_percentage := inlier_percentage
    num_inliers := ((⌊inlier_percentage * (Ntot n : ℝ)⌋ : ℤ) : ℝ)
    w := fun _ _ => ((⌊inlier_percentage * (Ntot n : ℝ)⌋ : ℤ) : ℝ) / (Ntot n : ℝ)
    beta := fun _ => 0
    gamma := fun _ => 0.01
    soln := none
    info := none }

/-- Raw constructor arguments of `LimeTr`, with run-time shapes, for the eager
validation in `LimeTr.check` (source lines 93-114).  Arrays are lists.  A callable
constraint `C` (resp. regularizer `H`) enters the checks only through
`num_constraints = C(0).size` (resp. `num_regularizer = H(0).size`), so the optional
constraint is carried as `(num_constraints, (cl, cu))`, the optional regularizer as
`(num_regularizer, (h0, h1))`, and the optional priors as pairs of rows.  Box-prior
bounds are extended reals because the default prior (source lines 62-69) uses `±inf`. -/
structure RawConfig where
  n : List ℕ
  k_beta : ℕ
  k_gamma : ℕ
  Y : List ℝ
  S : List ℝ
  Z : List (List ℝ)
  c : Option (ℕ × (List ℝ × List ℝ))
  h : Option (ℕ × (List ℝ × List ℝ))
  uprior : Option (List EReal × List EReal)
  gprior : Option (List ℝ × List ℝ)
  inlier_percentage : ℝ

namespace RawConfig

/-- The effective box prior: the argument when given, else the default
`[-inf]*k_beta + [0]*k_gamma` / `[inf]*k` (source lines 62-72). -/
def lbub (cfg : RawConfig) : List EReal × List EReal :=
  match cfg.uprior with
  | some u => u
  | none => (List.replicate cfg.k_beta ⊥ ++ List.replicate cfg.k_gamma 0,
      List.replicate (cfg.k_beta + cfg.k_gamma) ⊤)

/-- `self.Y.shape == (self.N,)` (source line 94). -/
def okY (cfg : RawConfig) : Prop := cfg.Y.length = cfg.n.sum

/-- `self.S.shape == (self.N,)` (source line 95). -/
def okS (cfg : RawConfig) : Prop := cfg.S.length = cfg.n.sum

/-- `self.Z.shape == (self.N, self.k_gamma)` (source line 96). -/
def okZshape (cfg : RawConfig) : Prop :=
  cfg.Z.length = cfg.n.sum ∧ ∀ row ∈ cfg.Z, row.length = cfg.k_gamma

/-- `np.all(self.S > 0.0)` (source line 97). -/
def okSpos (cfg : RawConfig) : Prop := ∀ x ∈ cfg.S, 0 < x

/-- `self.c.shape == (2, self.num_constraints)` (source line 100). -/
def okCshape (cfg : RawConfig) : Prop :=
  match cfg.c with
  | some con => con.2.1.length = con.1 ∧ con.2.2.length = con.1
  | none => True

/-- `np.all(self.cl <= self.cu)` (source line 101). -/
def okClcu (cfg : RawConfig) : Prop :=
  match cfg.c with
  | some con => ∀ p ∈ List.zip con.2.1 con.2.2, p.1 ≤ p.2
  | none => True

/-- `self.h.shape == (2, self.num_regularizer)` (source line 104). -/
def okHshape (cfg : RawConfig) : Prop :=
  match cfg.h with
  | some r => r.2.1.length = r.1 ∧ r.2.2.length = r.1
  | none => True

/-- `np.all(self.h[1] > 0.0)` (source line 105). -/
def okHpos (cfg : RawConfig) : Prop :=
  match cfg.h with
  | some r => ∀ x ∈ r.2.2, 0 < x
  | none => True

/-- `np.all(self.lb <= self.ub)` (source line 108; `use_uprior` is always true after
construction because of the default prior, source line 69). -/
def okUprior (cfg : RawConfig) : Prop :=
  ∀ p ∈ List.zip cfg.lbub.1 cfg.lbub.2, p.1 ≤ p.2

/-- `self.gprior.shape == (2, self.k)` (source line 111). -/
def okGshape (cfg : RawConfig) : Prop :=
  match cfg.gprior with
  | some g => g.1.length = cfg.k_beta + cfg.k_gamma ∧
      g.2.length = cfg.k_beta + cfg.k_gamma
  | none => True

/-- `np.all(self.gprior[1] > 0.0)` (source line 112). -/
def okGpos (cfg : RawConfig) : Prop :=
  match cfg.gprior with
  | some g => ∀ x ∈ g.2, 0 < x
  | none => True

/-- `0.0 < self.inlier_percentage <= 1.0` (source line 114). -/
def okInlier (cfg : RawConfig) : Prop :=
  0 < cfg.inlier_percentage ∧ cfg.inlier_percentage ≤ 1

open Classical in
/-- `LimeTr.check` (source lines 93-114): the eager validation run as the final step
of `__init__` (source line 91).  The first failing `assert` raises; the message names
the assert that broke, in source order. -/
def check (cfg : RawConfig) : Except String Unit :=
  if ¬ cfg.okY then .error "Y.shape == (N,)"
  else if ¬ cfg.okS then .error "S.shape == (N,)"
  else if ¬ cfg.okZshape then .error "Z.shape == (N, k_gamma)"
  else if ¬ cfg.okSpos then .error "all(S > 0.0)"
  else if ¬ cfg.okCshape then .error "c.shape == (2, num_constraints)"
  else if ¬ cfg.okClcu then .error "all(cl <= cu)"
  else if ¬ cfg.okHshape then .error "h.shape == (2, num_regularizer)"
  else if ¬ cfg.okHpos then .error "all(h[1] > 0.0)"
  else if ¬ cfg.okUprior then .error "all(lb <= ub)"
  else if ¬ cfg.okGshape then .error "gprior.shape == (2, k)"
  else if ¬ cfg.okGpos then .error "all(gprior[1] > 0.0)"
  else if ¬ cfg.okInlier then .error "0.0 < inlier_percentage <= 1.0"
  else .ok ()

/-- Constructing a `LimeTr` from raw arguments: `__init__` performs its assignments
and then runs `self.check()` (source line 91), so construction completes exactly when
every assert passes, before any optimization call. -/
def construct (cfg : RawConfig) : Except String RawConfig :=
  match cfg.check with
  | .ok _ => .ok cfg
  | .error e => .error e

/-- The invariants claim C7 lists explicitly. -/
def claimedOk (cfg : RawConfig) : Prop :=
  cfg.okY ∧ cfg.okS ∧ cfg.okZshape ∧ cfg.okSpos ∧ cfg.okHpos ∧ cfg.okUprior ∧
    cfg.okGpos ∧ cfg.okInlier

/-- All invariants `LimeTr.check` actually enforces. -/
def fullOk (cfg : RawConfig) : Prop :=
  cfg.okY ∧ cfg.okS ∧ cfg.okZshape ∧ cfg.okSpos ∧ cfg.okCshape ∧ cfg.okClcu ∧
    cfg.okHshape ∧ cfg.okHpos ∧ cfg.okUprior ∧ cfg.okGshape ∧ cfg.okGpos ∧
    cfg.okInlier

end RawConfig

/-- The `objective` method as a state transformer: its body (source lines 116-160)
contains no assignment to a `self` field, so the faithful translation returns the
state unchanged next to the value. -/
def LimeTr.objectiveCall {kb : ℕ} {ι : Type} (self : LimeTr m n kb kg ι)
    (x : Fin (kb + kg) → ℝ) : ℝ × LimeTr m n kb kg ι :=
  (self.objective x, self)

/-- The `gradient` method as a state transformer: its body (source lines 162-218)
contains no assignment to a `self` field. -/
def LimeTr.gradientCall {kb : ℕ} {ι : Type} (self : LimeTr m n kb kg ι)
    (x : Fin (kb + kg) → ℝ) : (Fin (kb + kg) → ℝ) × LimeTr m n kb kg ι :=
  (self.gradient x, self)

/-- Group sizes of the concrete example problem: two groups, of sizes 1 and 2. -/
def exN : Fin 2 → ℕ := ![1, 2]

/-- A concrete untrimmed example model (`inlier_percentage = 1`). -/
def exModel : LimeTr 2 exN 1 1 Unit :=
  LimeTr.init (fun _ _ => 1) (fun _ _ => 1) (fun _ _ _ => 1)
    (fun b _i _ => b 0) (fun _ _ _ _ => 1) none none 1

/-- A concrete trimmed example model (`inlier_percentage = 1/2`). -/
def exModelTrim : LimeTr 2 exN 1 1 Unit :=
  LimeTr.init (fun _ _ => 1) (fun _ _ => 1) (fun _ _ _ => 1)
    (fun b _i _ => b 0) (fun _ _ _ _ => 1) none none (1 / 2)

/-- A trivial external solver stub for instantiating the fit theorems: every solve
fails, so `optimize` leaves the state unchanged. -/
def exSolver : ℕ → LimeTr 2 exN 1 1 Unit → Option ((Fin (1 + 1) → ℝ) × Unit) :=
  fun _ _ => none

/-- A configuration satisfying every invariant that claim C7 lists, whose
constraint bounds are nevertheless crossed: `cl = [1] > cu = [0]`. -/
def cexConfig : RawConfig :=
  { n := [1]
    k_beta := 0
    k_gamma := 0
    Y := [0]
    S := [1]
    Z := [[]]
    c := some (1, ([1], [0]))
    h := none
    uprior := none
    gprior := none
    inlier_percentage := 1 }

/-- A fully valid configuration. -/
def okConfig : RawConfig :=
  { n := [1]
    k_beta := 0
    k_gamma := 0
    Y := [0]
    S := [1]
    Z := [[]]
    c := none
    h := none
    uprior := none
    gprior := none
    inlier_percentage := 1 }


/-- The shared likelihood computation of `objective` (source lines 135-151) as a
function of the data actually used: residual `Rv`, variances `Vv`, design `Zv`,
and `γ`. -/
def objectiveCore (Rv Vv : ∀ i, Fin (n i) → ℝ) (Zv : ∀ i, Fin (n i) → Fin kg → ℝ)
    (γ : Fin kg → ℝ) : ℝ :=
  0.5 * (Ntot n : ℝ) * Real.log (2 * Real.pi) + 0.5 * logDet Vv Zv γ
    + 0.5 * ∑ i, Rv i ⬝ᵥ invDot Vv Zv γ Rv i

/-- The shared likelihood-gradient computation of `gradient` (source lines 194-208)
as a function of the data actually used. -/
def gradientCore {kb : ℕ} (Rv : ∀ i, Fin (n i) → ℝ)
    (JFv : ∀ i, Fin (n i) → Fin kb → ℝ) (Vv : ∀ i, Fin (n i) → ℝ)
    (Zv : ∀ i, Fin (n i) → Fin kg → ℝ) (γ : Fin kg → ℝ) : Fin (kb + kg) → ℝ :=
  let DR := invDot Vv Zv γ Rv
  let DZ := invDotMat Vv Zv γ Zv
  Fin.append (fun a => -∑ i, ∑ j, JFv i j a * DR i j)
    (fun l => 0.5 * ∑ i, ∑ j, Zv i j l * DZ i j l
      - 0.5 * ∑ i, (∑ j, DZ i j l * Rv i j) ^ 2)

/-- The contribution of a single observation to `objectiveTrimming`, as a function of
that observation's weight `u`: `0.5·r·u/d(u) + 0.5·log d(u)` with
`d(u) = V^u + t·u`. -/
def obsTerm {kb : ℕ} {ι : Type} (s : LimeTr m n kb kg ι) (c : Obs m n) (u : ℝ) : ℝ :=
  0.5 * ((s.Y c.1 c.2 - s.F s.beta c.1 c.2) ^ 2 * u /
      (s.V c.1 c.2 ^ u + (∑ l, s.Z c.1 c.2 l ^ 2 * s.gamma l) * u))
    + 0.5 * Real.log (s.V c.1 c.2 ^ u + (∑ l, s.Z c.1 c.2 l ^ 2 * s.gamma l) * u)

/-- A dependently-sized block-diagonal matrix has block-wise determinant. -/
theorem det_blockDiag (M : ∀ i, Matrix (Fin (n i)) (Fin (n i)) ℝ) :
    (blockDiagonal' M).det = ∏ i, (M i).det := by
  have hbt : (blockDiagonal' M).BlockTriangular Sigma.fst := by
    rintro ⟨k, i⟩ ⟨k', j⟩ h
    exact blockDiagonal'_apply_ne M i j (ne_of_gt h)
  rw [hbt.det_fintype]
  refine Finset.prod_congr rfl fun k _ => ?_
  have hsub : ((blockDiagonal' M).toSquareBlock Sigma.fst k).submatrix
      (groupEquiv k) (groupEquiv k) = M k := by
    ext a b
    exact blockDiagonal'_apply_eq M k a b
  rw [← hsub, det_submatrix_equiv_self]

/-- A dependently-sized block-diagonal matrix has block-wise inverse. -/
theorem inv_blockDiag (M : ∀ i, Matrix (Fin (n i)) (Fin (n i)) ℝ)
    (hM : ∀ i, IsUnit (M i).det) :
    (blockDiagonal' M)⁻¹ = blockDiagonal' fun i => (M i)⁻¹ := by
  apply inv_eq_left_inv
  rw [← blockDiagonal'_mul]
  have h1 : (fun k => (M k)⁻¹ * M k) = fun k => (1 : Matrix (Fin (n k)) (Fin (n k)) ℝ) :=
    funext fun k => nonsing_inv_mul (M k) (hM k)
  rw [h1]
  exact blockDiagonal'_one

/-- Multiplying a block-diagonal matrix into a vector acts block-wise. -/
theorem mulVec_blockDiag (M : ∀ i, Matrix (Fin (n i)) (Fin (n i)) ℝ)
    (v : Obs m n → ℝ) (c : Obs m n) :
    (blockDiagonal' M *ᵥ v) c = ∑ j, M c.1 c.2 j * v ⟨c.1, j⟩ := by
  obtain ⟨k, i⟩ := c
  simp only [Matrix.mulVec, Matrix.dotProduct]
  rw [← Finset.univ_sigma_univ, Finset.sum_sigma]
  rw [Fintype.sum_eq_single k (fun k' hk' => Finset.sum_eq_zero fun j _ => by
    rw [blockDiagonal'_apply_ne M i j (Ne.symm hk'), zero_mul])]
  simp only [blockDiagonal'_apply_eq]

/-- Summation over all observations splits into a sum over groups. -/
theorem sum_obs (f : Obs m n → ℝ) : ∑ c : Obs m n, f c = ∑ i, ∑ j, f ⟨i, j⟩ := by
  rw [← Finset.univ_sigma_univ, Finset.sum_sigma]

/-- Real matrices: conjugate transpose is plain transpose. -/
theorem real_conjTranspose {a b : Type*} (A : Matrix a b ℝ) : Aᴴ = Aᵀ := by
  ext i j
  simp [Matrix.conjTranspose_apply]

theorem covBlock_posDef (V : ∀ i, Fin (n i) → ℝ) (Z : ∀ i, Fin (n i) → Fin kg → ℝ)
    (γ : Fin kg → ℝ) (i : Fin m) (hV : ∀ j, 0 < V i j) (hγ : ∀ l, 0 ≤ γ l) :
    (covBlock V Z γ i).PosDef := by
  have h1 : (Matrix.diagonal (V i)).PosDef := Matrix.posDef_diagonal_iff.mpr hV
  have key : Matrix.of (Z i) * Matrix.diagonal γ * (Matrix.of (Z i))ᵀ
      = (Matrix.of (Z i) * Matrix.diagonal fun l => Real.sqrt (γ l)) *
        (Matrix.of (Z i) * Matrix.diagonal fun l => Real.sqrt (γ l))ᴴ := by
    have hγ2 : (fun l => Real.sqrt (γ l) * Real.sqrt (γ l)) = γ :=
      funext fun l => Real.mul_self_sqrt (hγ l)
    rw [real_conjTranspose, Matrix.transpose_mul, Matrix.diagonal_transpose]
    rw [Matrix.mul_assoc, Matrix.mul_assoc]
    rw [← Matrix.mul_assoc (Matrix.diagonal fun l => Real.sqrt (γ l))
        (Matrix.diagonal fun l => Real.sqrt (γ l)) (Matrix.of (Z i))ᵀ]
    rw [Matrix.diagonal_mul_diagonal, hγ2]
  have h2 : (Matrix.of (Z i) * Matrix.diagonal γ * (Matrix.of (Z i))ᵀ).PosSemidef := by
    rw [key]
    exact Matrix.posSemidef_self_mul_conjTranspose _
  exact h1.add_posSemidef h2

theorem covBlock_det_pos (V : ∀ i, Fin (n i) → ℝ) (Z : ∀ i, Fin (n i) → Fin kg → ℝ)
    (γ : Fin kg → ℝ) (i : Fin m) (hV : ∀ j, 0 < V i j) (hγ : ∀ l, 0 ≤ γ l) :
    0 < (covBlock V Z γ i).det :=
  (covBlock_posDef V Z γ i hV hγ).det_pos

theorem covBlock_transpose (V : ∀ i, Fin (n i) → ℝ) (Z : ∀ i, Fin (n i) → Fin kg → ℝ)
    (γ : Fin kg → ℝ) (i : Fin m) : (covBlock V Z γ i)ᵀ = covBlock V Z γ i := by
  unfold covBlock
  rw [Matrix.transpose_add, Matrix.diagonal_transpose, Matrix.transpose_mul,
    Matrix.transpose_mul, Matrix.transpose_transpose, Matrix.diagonal_transpose,
    Matrix.mul_assoc]

theorem covBlock_inv_transpose (V : ∀ i, Fin (n i) → ℝ)
    (Z : ∀ i, Fin (n i) → Fin kg → ℝ) (γ : Fin kg → ℝ) (i : Fin m) :
    ((covBlock V Z γ i)⁻¹)ᵀ = (covBlock V Z γ i)⁻¹ := by
  rw [Matrix.transpose_nonsing_inv, covBlock_transpose]

/-! ## Claim theorems -/

/-- C6: the mutable fields `(beta, gamma, w, soln, info)` are updated only at the end
of a completed `optimize` call and never partially: a failed solve leaves every field
exactly as it was, and a completed solve assigns `soln`, `info`, `beta`, `gamma` from
the solver result while every other field — in particular `w` — keeps its prior
value. -/
theorem optimize_frame_spec {kb : ℕ} {ι : Type} (s : LimeTr m n kb kg ι)
    (r : (Fin (kb + kg) → ℝ) × ι) :
    s.optimize none = s ∧
    (s.optimize (some r)).soln = some r.1 ∧
    (s.optimize (some r)).info = some r.2 ∧
    (s.optimize (some r)).beta = xbeta r.1 ∧
    (s.optimize (some r)).gamma = xgamma r.1 ∧
    (s.optimize (some r)).w = s.w ∧
    (s.optimize (some r)).Y = s.Y ∧
    (s.optimize (some r)).S = s.S ∧
    (s.optimize (some r)).Z = s.Z ∧
    (s.optimize (some r)).F = s.F ∧
    (s.optimize (some r)).JF = s.JF ∧
    (s.optimize (some r)).reg = s.reg ∧
    (s.optimize (some r)).gprior = s.gprior ∧
    (s.optimize (some r)).inlier_percentage = s.inlier_percentage ∧
    (s.optimize (some r)).num_inliers = s.num_inliers :=
  ⟨rfl, rfl, rfl, rfl, rfl, rfl, rfl, rfl, rfl, rfl, rfl, rfl, rfl, rfl, rfl⟩

/-- C5: with trimming inactive, `fitModel` performs a single `optimize` call whose
iteration budget is `inner_max_iter * outer_max_iter`; with trimming active it runs
the outer loop for at most `outer_max_iter` iterations, where each iteration first
optimizes `(beta, gamma)` with `w` fixed via the external solver and then takes a
projected-gradient step on `w` through the capped-simplex projector, stopping as soon
as the change in the trimming objective falls below `outer_tol`. -/
theorem fitModel_spec {kb : ℕ} {ι : Type} (s : LimeTr m n kb kg ι)
    (solver : ℕ → LimeTr m n kb kg ι → Option ((Fin (kb + kg) → ℝ) × ι))
    (imax omax : ℕ) (step tol : ℝ) :
    (¬ s.use_trimming →
      s.fitModel solver imax omax step tol = s.optimize (solver (imax * omax) s)) ∧
    (s.use_trimming →
      s.fitModel solver imax omax step tol = fitLoop solver imax step tol omax s) ∧
    (∀ s' : LimeTr m n kb kg ι, fitLoop solver imax step tol 0 s' = s') ∧
    (∀ (k : ℕ) (s' : LimeTr m n kb kg ι),
      fitLoop solver imax step tol (k + 1) s' =
        if |(s'.trimStep solver imax step).objectiveTrimming
              (s'.trimStep solver imax step).w - s'.objectiveTrimming s'.w| < tol
        then s'.trimStep solver imax step
        else fitLoop solver imax step tol k (s'.trimStep solver imax step)) ∧
    (∀ s' : LimeTr m n kb kg ι,
      s'.trimStep solver imax step =
        (let s1 := s'.optimize (solver imax s')
         { s1 with
            w := fun i j => projCappedSimplex
              (fun c : Obs m n =>
                s1.w c.1 c.2 - step * s1.gradientTrimming s1.w c.1 c.2)
              s1.num_inliers ⟨i, j⟩ })) := by
  refine ⟨fun h => ?_, fun h => ?_, fun s' => rfl, fun k s' => ?_, fun s' => rfl⟩
  · simp only [LimeTr.fitModel, if_neg h]
  · simp only [LimeTr.fitModel, if_pos h]
  · simp only [fitLoop]

/-- Witness for C5 at the concrete untrimmed model and the stub solver. -/
theorem fitModel_spec_witness :
    ¬ exModel.use_trimming ∧
      exModel.fitModel exSolver 20 100 1 (1e-6) =
        exModel.optimize (exSolver (20 * 100) exModel) := by
  have h : ¬ exModel.use_trimming := by
    norm_num [LimeTr.use_trimming, exModel, LimeTr.init]
  exact ⟨h, (fitModel_spec exModel exSolver 20 100 1 (1e-6)).1 h⟩

/-- C8: after a valid construction the weight vector is uniformly
`num_inliers / N` with `num_inliers = floor(inlier_percentage * N)`; every entry lies
in `[0, 1]`, and the weights sum exactly to `floor(inlier_percentage * N)`. -/
theorem init_weights_spec {kb : ℕ} {ι : Type}
    (Y : ∀ i, Fin (n i) → ℝ) (S : ∀ i, Fin (n i) → ℝ)
    (Z : ∀ i, Fin (n i) → Fin kg → ℝ)
    (F : (Fin kb → ℝ) → ∀ i, Fin (n i) → ℝ)
    (JF : (Fin kb → ℝ) → ∀ i, Fin (n i) → Fin kb → ℝ)
    (reg : Option (Reg (kb + kg)))
    (gprior : Option ((Fin (kb + kg) → ℝ) × (Fin (kb + kg) → ℝ)))
    (p : ℝ) (s : LimeTr m n kb kg ι)
    (hs : s = LimeTr.init Y S Z F JF reg gprior p)
    (h0 : 0 < p) (h1 : p ≤ 1) :
    s.num_inliers = ((⌊p * (Ntot n : ℝ)⌋ : ℤ) : ℝ) ∧
    (∀ i j, s.w i j = s.num_inliers / (Ntot n : ℝ)) ∧
    (∀ i (j : Fin (n i)), 0 ≤ s.w i j ∧ s.w i j ≤ 1) ∧
    (∑ i, ∑ j, s.w i j) = s.num_inliers := by
  subst hs
  have hfl0 : (0 : ℝ) ≤ ((⌊p * (Ntot n : ℝ)⌋ : ℤ) : ℝ) := by
    have : (0 : ℤ) ≤ ⌊p * (Ntot n : ℝ)⌋ :=
      Int.floor_nonneg.mpr (mul_nonneg h0.le (Nat.cast_nonneg _))
    exact_mod_cast this
  refine ⟨rfl, fun i j => rfl, fun i j => ⟨?_, ?_⟩, ?_⟩
  · exact div_nonneg hfl0 (Nat.cast_nonneg _)
  · rcases Nat.eq_zero_or_pos (Ntot n) with hN | hN
    · simp [LimeTr.init, hN]
    · have hNR : (0 : ℝ) < (Ntot n : ℝ) := by exact_mod_cast hN
      show ((⌊p * (Ntot n : ℝ)⌋ : ℤ) : ℝ) / (Ntot n : ℝ) ≤ 1
      rw [div_le_one hNR]
      calc ((⌊p * (Ntot n : ℝ)⌋ : ℤ) : ℝ) ≤ p * (Ntot n : ℝ) := Int.floor_le _
        _ ≤ 1 * (Ntot n : ℝ) := mul_le_mul_of_nonneg_right h1 (Nat.cast_nonneg _)
        _ = (Ntot n : ℝ) := one_mul _
  · show (∑ i, ∑ _j : Fin (n i),
        ((⌊p * (Ntot n : ℝ)⌋ : ℤ) : ℝ) / (Ntot n : ℝ)) = _
    have hsum : (∑ i, ∑ _j : Fin (n i),
        ((⌊p * (Ntot n : ℝ)⌋ : ℤ) : ℝ) / (Ntot n : ℝ))
        = (Ntot n : ℝ) * (((⌊p * (Ntot n : ℝ)⌋ : ℤ) : ℝ) / (Ntot n : ℝ)) := by
      simp only [Finset.sum_const, Finset.card_univ, Fintype.card_fin, nsmul_eq_mul]
      rw [← Finset.sum_mul, Ntot]
      push_cast
      ring
    rw [hsum]
    rcases Nat.eq_zero_or_pos (Ntot n) with hN | hN
    · simp [LimeTr.init, hN]
    · have hNR : ((Ntot n : ℝ)) ≠ 0 := by
        exact_mod_cast hN.ne'
      rw [mul_comm, div_mul_cancel₀ _ hNR]
      rfl

/-- Witness for C8 at the concrete trimmed model. -/
theorem init_weights_spec_witness :
    exModelTrim = LimeTr.init (fun _ _ => 1) (fun _ _ => 1) (fun _ _ _ => 1)
        (fun b _i _ => b 0) (fun _ _ _ _ => 1) none none (1 / 2) ∧
    (0 : ℝ) < 1 / 2 ∧ (1 : ℝ) / 2 ≤ 1 ∧
    (∀ i (j : Fin (exN i)), 0 ≤ exModelTrim.w i j ∧ exModelTrim.w i j ≤ 1) ∧
    (∑ i, ∑ j, exModelTrim.w i j) = exModelTrim.num_inliers := by
  have h := init_weights_spec (fun _ _ => 1) (fun _ _ => 1) (fun _ _ _ => 1)
    (fun b _i _ => b 0) (fun _ _ _ _ => 1) none none (1 / 2) exModelTrim rfl
    (by norm_num) (by norm_num)
  exact ⟨rfl, by norm_num, by norm_num, h.2.2.1, h.2.2.2⟩

/-- With trimming inactive, `objective` never reads `w`. -/
theorem objective_w_irrel {kb : ℕ} {ι : Type} (s : LimeTr m n kb kg ι)
    (w' : ∀ i, Fin (n i) → ℝ) (h : ¬ s.use_trimming) (x : Fin (kb + kg) → ℝ) :
    ({ s with w := w' } : LimeTr m n kb kg ι).objective x = s.objective x := by
  have h' : ¬ ({ s with w := w' } : LimeTr m n kb kg ι).use_trimming := h
  simp only [LimeTr.objective, LimeTr.Yeff, LimeTr.Feff, LimeTr.Zeff, LimeTr.Veff,
    LimeTr.V, if_neg h, if_neg h']
  rfl

/-- With trimming inactive, `gradient` never reads `w`. -/
theorem gradient_w_irrel {kb : ℕ} {ι : Type} (s : LimeTr m n kb kg ι)
    (w' : ∀ i, Fin (n i) → ℝ) (h : ¬ s.use_trimming) (x : Fin (kb + kg) → ℝ) :
    ({ s with w := w' } : LimeTr m n kb kg ι).gradient x = s.gradient x := by
  have h' : ¬ ({ s with w := w' } : LimeTr m n kb kg ι).use_trimming := h
  simp only [LimeTr.gradient, LimeTr.Yeff, LimeTr.Feff, LimeTr.JFeff, LimeTr.Zeff,
    LimeTr.Veff, LimeTr.V, if_neg h, if_neg h']
  rfl

/-- C10: trimming is treated as active exactly when `0 < inlier_percentage < 1`.  At
`inlier_percentage = 1.0` the constructed weight vector is all ones
(`num_inliers = N`), yet `objective` and `gradient` take the unweighted branch and
ignore `w` entirely. -/
theorem inlier_one_boundary {kb : ℕ} {ι : Type}
    (Y : ∀ i, Fin (n i) → ℝ) (S : ∀ i, Fin (n i) → ℝ)
    (Z : ∀ i, Fin (n i) → Fin kg → ℝ)
    (F : (Fin kb → ℝ) → ∀ i, Fin (n i) → ℝ)
    (JF : (Fin kb → ℝ) → ∀ i, Fin (n i) → Fin kb → ℝ)
    (reg : Option (Reg (kb + kg)))
    (gprior : Option ((Fin (kb + kg) → ℝ) × (Fin (kb + kg) → ℝ)))
    (s : LimeTr m n kb kg ι) (hs : s = LimeTr.init Y S Z F JF reg gprior 1) :
    (∀ s₀ : LimeTr m n kb kg ι,
      s₀.use_trimming ↔ 0 < s₀.inlier_percentage ∧ s₀.inlier_percentage < 1) ∧
    ¬ s.use_trimming ∧
    s.num_inliers = (Ntot n : ℝ) ∧
    (∀ i (j : Fin (n i)), s.w i j = 1) ∧
    (∀ (w' : ∀ i, Fin (n i) → ℝ) (x : Fin (kb + kg) → ℝ),
      ({ s with w := w' } : LimeTr m n kb kg ι).objective x = s.objective x ∧
      ({ s with w := w' } : LimeTr m n kb kg ι).gradient x = s.gradient x) := by
  subst hs
  have hnt : ¬ (LimeTr.init Y S Z F JF reg gprior 1 : LimeTr m n kb kg ι).use_trimming := by
    simp only [LimeTr.use_trimming, LimeTr.init]
    norm_num
  have hfloor : ((⌊(1 : ℝ) * (Ntot n : ℝ)⌋ : ℤ) : ℝ) = (Ntot n : ℝ) := by
    rw [one_mul, Int.floor_natCast]
    push_cast
    rfl
  refine ⟨fun s₀ => Iff.rfl, hnt, hfloor, fun i j => ?_,
    fun w' x => ⟨objective_w_irrel _ w' hnt x, gradient_w_irrel _ w' hnt x⟩⟩
  have hni : 0 < n i := j.pos
  have hN : 0 < Ntot n := by
    calc 0 < n i := hni
      _ ≤ Ntot n := Finset.single_le_sum (fun a _ => Nat.zero_le (n a)) (Finset.mem_univ i)
  have hNR : ((Ntot n : ℝ)) ≠ 0 := by exact_mod_cast hN.ne'
  show ((⌊(1 : ℝ) * (Ntot n : ℝ)⌋ : ℤ) : ℝ) / (Ntot n : ℝ) = 1
  rw [hfloor, div_self hNR]

/-- Witness for C10 at the concrete untrimmed model. -/
theorem inlier_one_boundary_witness :
    ¬ exModel.use_trimming ∧ (∀ i (j : Fin (exN i)), exModel.w i j = 1) := by
  have h := inlier_one_boundary (fun _ _ => 1) (fun _ _ => 1) (fun _ _ _ => 1)
    (fun b _i _ => b 0) (fun _ _ _ _ => 1) none none exModel rfl
  exact ⟨h.2.1, h.2.2.2.1⟩

/-- C9: `objective` and `gradient` are pure in the model state: the faithful
state-transformer translation of each method returns the state unchanged (the bodies
assign no `self` field), re-evaluating at identical `x` and stored `w` returns the
identical value, and the value depends only on `(x, w, problem data)` — not on the
mutable fields `beta`, `gamma`, `soln`, `info`. -/
theorem objective_gradient_pure {kb : ℕ} {ι : Type} (s s' : LimeTr m n kb kg ι)
    (x : Fin (kb + kg) → ℝ)
    (hY : s'.Y = s.Y) (hS : s'.S = s.S) (hZ : s'.Z = s.Z) (hF : s'.F = s.F)
    (hJF : s'.JF = s.JF) (hreg : s'.reg = s.reg) (hgp : s'.gprior = s.gprior)
    (hp : s'.inlier_percentage = s.inlier_percentage) (hw : s'.w = s.w) :
    (s.objectiveCall x).2 = s ∧
    (s.gradientCall x).2 = s ∧
    ((s.objectiveCall x).2.objectiveCall x).1 = (s.objectiveCall x).1 ∧
    ((s.gradientCall x).2.gradientCall x).1 = (s.gradientCall x).1 ∧
    s'.objective x = s.objective x ∧
    s'.gradient x = s.gradient x := by
  obtain ⟨Y1, S1, Z1, F1, JF1, reg1, gp1, p1, ni1, w1, b1, g1, so1, inf1⟩ := s
  obtain ⟨Y2, S2, Z2, F2, JF2, reg2, gp2, p2, ni2, w2, b2, g2, so2, inf2⟩ := s'
  cases hY; cases hS; cases hZ; cases hF; cases hJF; cases hreg; cases hgp
  cases hp; cases hw
  exact ⟨rfl, rfl, rfl, rfl, rfl, rfl⟩

/-- Witness for C9: the concrete model with its mutable `beta` field overwritten
yields the same objective value, and evaluation leaves the state unchanged. -/
theorem objective_gradient_pure_witness :
    ({ exModel with beta := fun _ => 5 } : LimeTr 2 exN 1 1 Unit).objective
        (fun _ => 1) = exModel.objective (fun _ => 1) ∧
    (exModel.objectiveCall (fun _ => 1)).2 = exModel :=
  ⟨(objective_gradient_pure exModel { exModel with beta := fun _ => 5 } (fun _ => 1)
      rfl rfl rfl rfl rfl rfl rfl rfl rfl).2.2.2.2.1,
    (objective_gradient_pure exModel exModel (fun _ => 1)
      rfl rfl rfl rfl rfl rfl rfl rfl rfl).1⟩

set_option maxHeartbeats 1000000 in
/-- The validation outcome, characterised: `check` passes exactly when every
enforced invariant holds. -/
theorem check_ok_iff (cfg : RawConfig) :
    cfg.check = Except.ok () ↔ cfg.fullOk := by
  constructor
  · intro h
    have e1 : cfg.okY := by
      by_contra hn
      unfold RawConfig.check at h
      rw [if_pos hn] at h
      exact absurd h (by simp)
    have e2 : cfg.okS := by
      by_contra hn
      unfold RawConfig.check at h
      rw [if_neg (not_not_intro e1), if_pos hn] at h
      exact absurd h (by simp)
    have e3 : cfg.okZshape := by
      by_contra hn
      unfold RawConfig.check at h
      rw [if_neg (not_not_intro e1), if_neg (not_not_intro e2), if_pos hn] at h
      exact absurd h (by simp)
    have e4 : cfg.okSpos := by
      by_contra hn
      unfold RawConfig.check at h
      rw [if_neg (not_not_intro e1), if_neg (not_not_intro e2),
        if_neg (not_not_intro e3), if_pos hn] at h
      exact absurd h (by simp)
    have e5 : cfg.okCshape := by
      by_contra hn
      unfold RawConfig.check at h
      rw [if_neg (not_not_intro e1), if_neg (not_not_intro e2),
        if_neg (not_not_intro e3), if_neg (not_not_intro e4), if_pos hn] at h
      exact absurd h (by simp)
    have e6 : cfg.okClcu := by
      by_contra hn
      unfold RawConfig.check at h
      rw [if_neg (not_not_intro e1), if_neg (not_not_intro e2),
        if_neg (not_not_intro e3), if_neg (not_not_intro e4),
        if_neg (not_not_intro e5), if_pos hn] at h
      exact absurd h (by simp)
    have e7 : cfg.okHshape := by
      by_contra hn
      unfold RawConfig.check at h
      rw [if_neg (not_not_intro e1), if_neg (not_not_intro e2),
        if_neg (not_not_intro e3), if_neg (not_not_intro e4),
        if_neg (not_not_intro e5), if_neg (not_not_intro e6), if_pos hn] at h
      exact absurd h (by simp)
    have e8 : cfg.okHpos := by
      by_contra hn
      unfold RawConfig.check at h
      rw [if_neg (not_not_intro e1), if_neg (not_not_intro e2),
        if_neg (not_not_intro e3), if_neg (not_not_intro e4),
        if_neg (not_not_intro e5), if_neg (not_not_intro e6),
        if_neg (not_not_intro e7), if_pos hn] at h
      exact absurd h (by simp)
    have e9 : cfg.okUprior := by
      by_contra hn
      unfold RawConfig.check at h
      rw [if_neg (not_not_intro e1), if_neg (not_not_intro e2),
        if_neg (not_not_intro e3), if_neg (not_not_intro e4),
        if_neg (not_not_intro e5), if_neg (not_not_intro e6),
        if_neg (not_not_intro e7), if_neg (not_not_intro e8), if_pos hn] at h
      exact absurd h (by simp)
    have e10 : cfg.okGshape := by
      by_contra hn
      unfold RawConfig.check at h
      rw [if_neg (not_not_intro e1), if_neg (not_not_intro e2),
        if_neg (not_not_intro e3), if_neg (not_not_intro e4),
        if_neg (not_not_intro e5), if_neg (not_not_intro e6),
        if_neg (not_not_intro e7), if_neg (not_not_intro e8),
        if_neg (not_not_intro e9), if_pos hn] at h
      exact absurd h (by simp)
    have e11 : cfg.okGpos := by
      by_contra hn
      unfold RawConfig.check at h
      rw [if_neg (not_not_intro e1), if_neg (not_not_intro e2),
        if_neg (not_not_intro e3), if_neg (not_not_intro e4),
        if_neg (not_not_intro e5), if_neg (not_not_intro e6),
        if_neg (not_not_intro e7), if_neg (not_not_intro e8),
        if_neg (not_not_intro e9), if_neg (not_not_intro e10), if_pos hn] at h
      exact absurd h (by simp)
    have e12 : cfg.okInlier := by
      by_contra hn
      unfold RawConfig.check at h
      rw [if_neg (not_not_intro e1), if_neg (not_not_intro e2),
        if_neg (not_not_intro e3), if_neg (not_not_intro e4),
        if_neg (not_not_intro e5), if_neg (not_not_intro e6),
        if_neg (not_not_intro e7), if_neg (not_not_intro e8),
        if_neg (not_not_intro e9), if_neg (not_not_intro e10),
        if_neg (not_not_intro e11), if_pos hn] at h
      exact absurd h (by simp)
    exact ⟨e1, e2, e3, e4, e5, e6, e7, e8, e9, e10, e11, e12⟩
  · intro hf
    obtain ⟨f1, f2, f3, f4, f5, f6, f7, f8, f9, f10, f11, f12⟩ := hf
    unfold RawConfig.check
    rw [if_neg (not_not_intro f1), if_neg (not_not_intro f2),
      if_neg (not_not_intro f3), if_neg (not_not_intro f4),
      if_neg (not_not_intro f5), if_neg (not_not_intro f6),
      if_neg (not_not_intro f7), if_neg (not_not_intro f8),
      if_neg (not_not_intro f9), if_neg (not_not_intro f10),
      if_neg (not_not_intro f11), if_neg (not_not_intro f12)]

/-- C7 (amended): construction fails eagerly, before any optimization call, exactly
when one of the constructor invariants is violated: the `Y`/`S`/`Z` shapes, `S > 0`,
the constraint shapes and bounds `cl ≤ cu`, the regularizer shapes and scales
`h[1] > 0`, the box prior `lb ≤ ub`, the Gaussian-prior shape and scales
`gprior[1] > 0`, and `0 < inlier_percentage ≤ 1`; a configuration satisfying all of
them constructs successfully, and the error names the invariant that broke. -/
theorem construct_spec (cfg : RawConfig) :
    cfg.construct = Except.ok cfg ↔ cfg.fullOk := by
  rw [← check_ok_iff]
  cases hc : cfg.check with
  | ok u => cases u; simp [RawConfig.construct, hc]
  | error e => simp [RawConfig.construct, hc]

/-- Witness for C7: a concrete valid configuration constructs successfully. -/
theorem construct_spec_witness : okConfig.construct = Except.ok okConfig := by
  refine (construct_spec okConfig).mpr ?_
  refine ⟨?_, ?_, ⟨?_, ?_⟩, ?_, ?_, ?_, ?_, ?_, ?_, ?_, ?_, ?_⟩ <;>
    norm_num [okConfig, RawConfig.okY, RawConfig.okS, RawConfig.okZshape,
      RawConfig.okSpos, RawConfig.okCshape, RawConfig.okClcu, RawConfig.okHshape,
      RawConfig.okHpos, RawConfig.okUprior, RawConfig.lbub, RawConfig.okGshape,
      RawConfig.okGpos, RawConfig.okInlier]

/-- C7 counterexample: `cexConfig` satisfies every invariant the claim lists (shapes
of `Y`, `S`, `Z`; `S > 0`; box prior; prior/regularizer scales; inlier percentage),
yet construction fails, because the constructor also asserts the constraint bounds
`cl <= cu` (source line 101), which the claim omits. -/
theorem construct_claim_counterexample :
    cexConfig.claimedOk ∧ cexConfig.construct = Except.error "all(cl <= cu)" := by
  have hY : cexConfig.okY := by simp [cexConfig, RawConfig.okY]
  have hS : cexConfig.okS := by simp [cexConfig, RawConfig.okS]
  have hZ : cexConfig.okZshape := by simp [cexConfig, RawConfig.okZshape]
  have hSp : cexConfig.okSpos := by norm_num [cexConfig, RawConfig.okSpos]
  have hCs : cexConfig.okCshape := by simp [cexConfig, RawConfig.okCshape]
  have hCl : ¬ cexConfig.okClcu := by norm_num [cexConfig, RawConfig.okClcu]
  have hHp : cexConfig.okHpos := by simp [cexConfig, RawConfig.okHpos]
  have hU : cexConfig.okUprior := by
    simp [cexConfig, RawConfig.okUprior, RawConfig.lbub]
  have hGp : cexConfig.okGpos := by simp [cexConfig, RawConfig.okGpos]
  have hI : cexConfig.okInlier := by norm_num [cexConfig, RawConfig.okInlier]
  have hc : cexConfig.check = Except.error "all(cl <= cu)" := by
    unfold RawConfig.check
    rw [if_neg (not_not_intro hY), if_neg (not_not_intro hS),
      if_neg (not_not_intro hZ), if_neg (not_not_intro hSp),
      if_neg (not_not_intro hCs), if_pos hCl]
  exact ⟨⟨hY, hS, hZ, hSp, hHp, hU, hGp, hI⟩, by simp [RawConfig.construct, hc]⟩

/-- The block-wise `logDet` equals the log-determinant of the full structured
covariance. -/
theorem logDet_eq_log_det_covMat (V : ∀ i, Fin (n i) → ℝ)
    (Z : ∀ i, Fin (n i) → Fin kg → ℝ) (γ : Fin kg → ℝ)
    (hV : ∀ i j, 0 < V i j) (hγ : ∀ l, 0 ≤ γ l) :
    logDet V Z γ = Real.log (covMat V Z γ).det := by
  unfold logDet covMat
  rw [det_blockDiag, Real.log_prod _ _ fun i _ =>
    (covBlock_det_pos V Z γ i (hV i) hγ).ne']

/-- The block-wise `invDot` agrees with multiplication by the inverse of the full
structured covariance. -/
theorem invDot_eq_covMat_inv (V : ∀ i, Fin (n i) → ℝ)
    (Z : ∀ i, Fin (n i) → Fin kg → ℝ) (γ : Fin kg → ℝ)
    (hV : ∀ i j, 0 < V i j) (hγ : ∀ l, 0 ≤ γ l)
    (R : ∀ i, Fin (n i) → ℝ) (c : Obs m n) :
    invDot V Z γ R c.1 c.2
      = ((covMat V Z γ)⁻¹ *ᵥ fun c' : Obs m n => R c'.1 c'.2) c := by
  unfold covMat
  rw [inv_blockDiag _ fun i => ((covBlock_det_pos V Z γ i (hV i) hγ).ne').isUnit]
  rw [mulVec_blockDiag]
  simp only [invDot, Matrix.mulVec, Matrix.dotProduct]

/-- The block-wise quadratic form `Σᵢ Rᵢ ⬝ (Σᵢ⁻¹ Rᵢ)` equals the flat quadratic form
`Rᵀ Σ⁻¹ R` over the full covariance. -/
theorem blockDot_eq_flat (V : ∀ i, Fin (n i) → ℝ)
    (Z : ∀ i, Fin (n i) → Fin kg → ℝ) (γ : Fin kg → ℝ)
    (hV : ∀ i j, 0 < V i j) (hγ : ∀ l, 0 ≤ γ l) (R : ∀ i, Fin (n i) → ℝ) :
    ∑ i, R i ⬝ᵥ invDot V Z γ R i
      = (fun c : Obs m n => R c.1 c.2) ⬝ᵥ
        ((covMat V Z γ)⁻¹ *ᵥ fun c : Obs m n => R c.1 c.2) := by
  calc ∑ i, R i ⬝ᵥ invDot V Z γ R i
      = ∑ i, ∑ j, R i j *
          ((covMat V Z γ)⁻¹ *ᵥ fun c : Obs m n => R c.1 c.2) ⟨i, j⟩ := by
        refine Finset.sum_congr rfl fun i _ => ?_
        unfold Matrix.dotProduct
        refine Finset.sum_congr rfl fun j _ => ?_
        rw [← invDot_eq_covMat_inv V Z γ hV hγ R ⟨i, j⟩]
    _ = (fun c : Obs m n => R c.1 c.2) ⬝ᵥ
          ((covMat V Z γ)⁻¹ *ᵥ fun c : Obs m n => R c.1 c.2) :=
        (sum_obs fun c => R c.1 c.2 *
          ((covMat V Z γ)⁻¹ *ᵥ fun c' : Obs m n => R c'.1 c'.2) c).symm

/-- C1: with trimming disabled, `objective(x)` returns
`0.5·N·log(2π) + 0.5·log det(Σ) + 0.5·Rᵀ Σ⁻¹ R`, where `R = Y − F(β)` and `Σ` is the
block covariance built from `(V, Z, γ, n)`, plus the regularizer term
`0.5·Σ((H(x)−h₀)/h₁)²` when a regularizer is configured and the Gaussian-prior term
`0.5·Σ((x−prior_mean)/prior_std)²` when a Gaussian prior is configured. -/
theorem objective_formula {kb : ℕ} {ι : Type} (s : LimeTr m n kb kg ι)
    (x : Fin (kb + kg) → ℝ) (hnt : ¬ s.use_trimming)
    (hS : ∀ i j, 0 < s.S i j) (hγ : ∀ l, 0 ≤ xgamma x l) :
    s.objective x =
      0.5 * (Ntot n : ℝ) * Real.log (2 * Real.pi)
      + 0.5 * Real.log (covMat s.V s.Z (xgamma x)).det
      + 0.5 * ((fun c : Obs m n => s.Y c.1 c.2 - s.F (xbeta x) c.1 c.2) ⬝ᵥ
          ((covMat s.V s.Z (xgamma x))⁻¹ *ᵥ
            fun c : Obs m n => s.Y c.1 c.2 - s.F (xbeta x) c.1 c.2))
      + (match s.reg with
          | some r => 0.5 * ∑ l, ((r.H x l - r.h0 l) / r.h1 l) ^ 2
          | none => 0)
      + (match s.gprior with
          | some g => 0.5 * ∑ a, ((x a - g.1 a) / g.2 a) ^ 2
          | none => 0) := by
  have hV : ∀ i j, 0 < s.V i j := fun i j => pow_pos (hS i j) 2
  simp only [LimeTr.objective, LimeTr.Yeff, LimeTr.Feff, LimeTr.Zeff, LimeTr.Veff,
    if_neg hnt]
  rw [logDet_eq_log_det_covMat s.V s.Z (xgamma x) hV hγ]
  rw [blockDot_eq_flat s.V s.Z (xgamma x) hV hγ
    fun i j => s.Y i j - s.F (xbeta x) i j]

/-- Witness for C1 at the concrete untrimmed model. -/
theorem objective_formula_witness :
    ¬ exModel.use_trimming ∧ (∀ i j, 0 < exModel.S i j) ∧
    exModel.objective (fun _ => 1) =
      0.5 * (Ntot exN : ℝ) * Real.log (2 * Real.pi)
        + 0.5 * Real.log (covMat exModel.V exModel.Z (xgamma ((fun _ => 1) : Fin (1 + 1) → ℝ))).det
        + 0.5 * ((fun c : Obs 2 exN =>
              exModel.Y c.1 c.2 - exModel.F (xbeta ((fun _ => 1) : Fin (1 + 1) → ℝ)) c.1 c.2) ⬝ᵥ
            ((covMat exModel.V exModel.Z (xgamma ((fun _ => 1) : Fin (1 + 1) → ℝ)))⁻¹ *ᵥ
              fun c : Obs 2 exN =>
                exModel.Y c.1 c.2 - exModel.F (xbeta ((fun _ => 1) : Fin (1 + 1) → ℝ)) c.1 c.2))
        + 0 + 0 := by
  have hnt : ¬ exModel.use_trimming := by
    norm_num [LimeTr.use_trimming, exModel, LimeTr.init]
  have hS : ∀ i j, 0 < exModel.S i j := fun i j => by
    norm_num [exModel, LimeTr.init]
  have h := objective_formula exModel (fun _ => 1) hnt hS
    (fun l => by norm_num [xgamma])
  refine ⟨hnt, hS, ?_⟩
  rw [h]
  norm_num [exModel, LimeTr.init]

/-- A column of the matrix form of `invDot` is `invDot` of the column. -/
theorem invDotMat_col (V : ∀ i, Fin (n i) → ℝ) (Z : ∀ i, Fin (n i) → Fin kg → ℝ)
    (γ : Fin kg → ℝ) (A : ∀ i, Fin (n i) → Fin kg → ℝ) (i : Fin m)
    (j : Fin (n i)) (l : Fin kg) :
    invDotMat V Z γ A i j l = invDot V Z γ (fun i' j' => A i' j' l) i j := by
  simp [invDotMat, invDot, Matrix.mul_apply, Matrix.mulVec, Matrix.dotProduct]

/-- For a symmetric matrix, the quadratic pairing can be shifted across the
product. -/
theorem mulVec_dot_symm {ν : Type*} [Fintype ν] (P : Matrix ν ν ℝ) (hP : Pᵀ = P)
    (u v : ν → ℝ) : (P *ᵥ u) ⬝ᵥ v = u ⬝ᵥ (P *ᵥ v) := by
  rw [Matrix.dotProduct_comm (P *ᵥ u) v, Matrix.dotProduct_mulVec,
    ← Matrix.mulVec_transpose, hP, Matrix.dotProduct_comm]

/-- C2: the analytic `gradient(x)` is the closed-form REML-type gradient: the beta
block is `−JF(β)ᵀ Σ⁻¹ R`; the gamma component for `l` is
`0.5·(Zₗᵀ Σ⁻¹ Zₗ)` (the trace term) minus `0.5·Σᵢ (Zₗᵢᵀ Σᵢ⁻¹ Rᵢ)²`, where the
per-group reduction runs over exactly the group blocks; the regularizer gradient
`JHᵀ·(H(x)−h₀)/h₁²` and the Gaussian-prior gradient `(x−mean)/std²` are added when
configured. -/
theorem gradient_formula {kb : ℕ} {ι : Type} (s : LimeTr m n kb kg ι)
    (x : Fin (kb + kg) → ℝ) (hnt : ¬ s.use_trimming)
    (hS : ∀ i j, 0 < s.S i j) (hγ : ∀ l, 0 ≤ xgamma x l) :
    (∀ a : Fin kb, s.gradient x (Fin.castAdd kg a) =
      -((fun c : Obs m n => s.JF (xbeta x) c.1 c.2 a) ⬝ᵥ
          ((covMat s.V s.Z (xgamma x))⁻¹ *ᵥ
            fun c : Obs m n => s.Y c.1 c.2 - s.F (xbeta x) c.1 c.2))
      + (match s.reg with
          | some r => ∑ l, r.JH x l (Fin.castAdd kg a) *
              ((r.H x l - r.h0 l) / r.h1 l ^ 2)
          | none => 0)
      + (match s.gprior with
          | some g => (x (Fin.castAdd kg a) - g.1 (Fin.castAdd kg a)) /
              g.2 (Fin.castAdd kg a) ^ 2
          | none => 0)) ∧
    (∀ l : Fin kg, s.gradient x (Fin.natAdd kb l) =
      0.5 * ((fun c : Obs m n => s.Z c.1 c.2 l) ⬝ᵥ
          ((covMat s.V s.Z (xgamma x))⁻¹ *ᵥ fun c : Obs m n => s.Z c.1 c.2 l))
      - 0.5 * ∑ i, ((fun j => s.Z i j l) ⬝ᵥ
          ((covBlock s.V s.Z (xgamma x) i)⁻¹ *ᵥ
            fun j => s.Y i j - s.F (xbeta x) i j)) ^ 2
      + (match s.reg with
          | some r => ∑ l', r.JH x l' (Fin.natAdd kb l) *
              ((r.H x l' - r.h0 l') / r.h1 l' ^ 2)
          | none => 0)
      + (match s.gprior with
          | some g => (x (Fin.natAdd kb l) - g.1 (Fin.natAdd kb l)) /
              g.2 (Fin.natAdd kb l) ^ 2
          | none => 0)) := by
  have hV : ∀ i j, 0 < s.V i j := fun i j => pow_pos (hS i j) 2
  constructor
  · intro a
    simp only [LimeTr.gradient, LimeTr.Yeff, LimeTr.Feff, LimeTr.JFeff, LimeTr.Zeff,
      LimeTr.Veff, if_neg hnt, Fin.append_left]
    have hcore : ∑ i, ∑ j, s.JF (xbeta x) i j a *
        invDot s.V s.Z (xgamma x) (fun i' j' => s.Y i' j' - s.F (xbeta x) i' j') i j
        = (fun c : Obs m n => s.JF (xbeta x) c.1 c.2 a) ⬝ᵥ
          ((covMat s.V s.Z (xgamma x))⁻¹ *ᵥ
            fun c : Obs m n => s.Y c.1 c.2 - s.F (xbeta x) c.1 c.2) :=
      calc ∑ i, ∑ j, s.JF (xbeta x) i j a *
            invDot s.V s.Z (xgamma x) (fun i' j' => s.Y i' j' - s.F (xbeta x) i' j') i j
          = ∑ i, ∑ j, s.JF (xbeta x) i j a *
              ((covMat s.V s.Z (xgamma x))⁻¹ *ᵥ
                fun c : Obs m n => s.Y c.1 c.2 - s.F (xbeta x) c.1 c.2) ⟨i, j⟩ :=
            Finset.sum_congr rfl fun i _ => Finset.sum_congr rfl fun j _ => by
              rw [invDot_eq_covMat_inv s.V s.Z (xgamma x) hV hγ
                (fun i' j' => s.Y i' j' - s.F (xbeta x) i' j') ⟨i, j⟩]
        _ = _ := (sum_obs fun c : Obs m n => s.JF (xbeta x) c.1 c.2 a *
              ((covMat s.V s.Z (xgamma x))⁻¹ *ᵥ
                fun c' : Obs m n => s.Y c'.1 c'.2 - s.F (xbeta x) c'.1 c'.2) c).symm
    rw [hcore]
  · intro l
    simp only [LimeTr.gradient, LimeTr.Yeff, LimeTr.Feff, LimeTr.JFeff, LimeTr.Zeff,
      LimeTr.Veff, if_neg hnt, Fin.append_right]
    have htr : ∑ i, ∑ j, s.Z i j l * invDotMat s.V s.Z (xgamma x) s.Z i j l
        = (fun c : Obs m n => s.Z c.1 c.2 l) ⬝ᵥ
          ((covMat s.V s.Z (xgamma x))⁻¹ *ᵥ fun c : Obs m n => s.Z c.1 c.2 l) :=
      calc ∑ i, ∑ j, s.Z i j l * invDotMat s.V s.Z (xgamma x) s.Z i j l
          = ∑ i, (fun j => s.Z i j l) ⬝ᵥ
              invDot s.V s.Z (xgamma x) (fun i' j' => s.Z i' j' l) i := by
            refine Finset.sum_congr rfl fun i _ => ?_
            unfold Matrix.dotProduct
            exact Finset.sum_congr rfl fun j _ => by
              rw [invDotMat_col s.V s.Z (xgamma x) s.Z i j l]
        _ = _ := blockDot_eq_flat s.V s.Z (xgamma x) hV hγ fun i' j' => s.Z i' j' l
    have hquad : ∀ i : Fin m,
        ∑ j, invDotMat s.V s.Z (xgamma x) s.Z i j l *
          (s.Y i j - s.F (xbeta x) i j)
        = (fun j => s.Z i j l) ⬝ᵥ ((covBlock s.V s.Z (xgamma x) i)⁻¹ *ᵥ
            fun j => s.Y i j - s.F (xbeta x) i j) := by
      intro i
      calc ∑ j, invDotMat s.V s.Z (xgamma x) s.Z i j l *
            (s.Y i j - s.F (xbeta x) i j)
          = ((covBlock s.V s.Z (xgamma x) i)⁻¹ *ᵥ fun j => s.Z i j l) ⬝ᵥ
            fun j => s.Y i j - s.F (xbeta x) i j := by
            unfold Matrix.dotProduct
            refine Finset.sum_congr rfl fun j _ => ?_
            rw [invDotMat_col s.V s.Z (xgamma x) s.Z i j l]
            rfl
        _ = _ := mulVec_dot_symm _ (covBlock_inv_transpose s.V s.Z (xgamma x) i) _ _
    rw [htr]
    simp only [hquad]

/-- Witness for C2 at the concrete untrimmed model: the gamma component. -/
theorem gradient_formula_witness :
    ¬ exModel.use_trimming ∧ (∀ i j, 0 < exModel.S i j) ∧
    exModel.gradient (fun _ => 1) (Fin.natAdd 1 0) =
      0.5 * ((fun c : Obs 2 exN => exModel.Z c.1 c.2 0) ⬝ᵥ
          ((covMat exModel.V exModel.Z
              (xgamma ((fun _ => 1) : Fin (1 + 1) → ℝ)))⁻¹ *ᵥ
            fun c : Obs 2 exN => exModel.Z c.1 c.2 0))
      - 0.5 * ∑ i, ((fun j => exModel.Z i j 0) ⬝ᵥ
          ((covBlock exModel.V exModel.Z
              (xgamma ((fun _ => 1) : Fin (1 + 1) → ℝ)) i)⁻¹ *ᵥ
            fun j => exModel.Y i j -
              exModel.F (xbeta ((fun _ => 1) : Fin (1 + 1) → ℝ)) i j)) ^ 2
      + 0 + 0 := by
  have hnt : ¬ exModel.use_trimming := by
    norm_num [LimeTr.use_trimming, exModel, LimeTr.init]
  have hS : ∀ i j, 0 < exModel.S i j := fun i j => by
    norm_num [exModel, LimeTr.init]
  have h := (gradient_formula exModel (fun _ => 1) hnt hS
    (fun l => by norm_num [xgamma])).2 0
  refine ⟨hnt, hS, ?_⟩
  rw [h]
  norm_num [exModel, LimeTr.init]

/-- C3: when trimming is active, `objective` and `gradient` scale `Y` and `F(β)` —
hence the residual — elementwise by `sqrt(w)`, scale each row of `Z` by `sqrt(wᵢ)`,
and replace each variance `Vᵢ` by `Vᵢ^{wᵢ}`, before building the structured
covariance; with trimming inactive the unscaled `Y`, `Z`, `V` are used. -/
theorem trimming_scaling {kb : ℕ} {ι : Type} (s : LimeTr m n kb kg ι)
    (x : Fin (kb + kg) → ℝ) :
    (s.use_trimming →
      s.objective x =
        objectiveCore
          (fun i j => (s.Y i j - s.F (xbeta x) i j) * Real.sqrt (s.w i j))
          (fun i j => s.V i j ^ s.w i j)
          (fun i j l => s.Z i j l * Real.sqrt (s.w i j)) (xgamma x)
        + (match s.reg with
            | some r => 0.5 * ∑ l, ((r.H x l - r.h0 l) / r.h1 l) ^ 2
            | none => 0)
        + (match s.gprior with
            | some g => 0.5 * ∑ a, ((x a - g.1 a) / g.2 a) ^ 2
            | none => 0) ∧
      s.gradient x = fun a =>
        gradientCore
          (fun i j => (s.Y i j - s.F (xbeta x) i j) * Real.sqrt (s.w i j))
          (fun i j b => s.JF (xbeta x) i j b * Real.sqrt (s.w i j))
          (fun i j => s.V i j ^ s.w i j)
          (fun i j l => s.Z i j l * Real.sqrt (s.w i j)) (xgamma x) a
        + (match s.reg with
            | some r => ∑ l, r.JH x l a * ((r.H x l - r.h0 l) / r.h1 l ^ 2)
            | none => 0)
        + (match s.gprior with
            | some g => (x a - g.1 a) / g.2 a ^ 2
            | none => 0)) ∧
    (¬ s.use_trimming →
      s.objective x =
        objectiveCore (fun i j => s.Y i j - s.F (xbeta x) i j) s.V s.Z (xgamma x)
        + (match s.reg with
            | some r => 0.5 * ∑ l, ((r.H x l - r.h0 l) / r.h1 l) ^ 2
            | none => 0)
        + (match s.gprior with
            | some g => 0.5 * ∑ a, ((x a - g.1 a) / g.2 a) ^ 2
            | none => 0) ∧
      s.gradient x = fun a =>
        gradientCore (fun i j => s.Y i j - s.F (xbeta x) i j) (s.JF (xbeta x))
          s.V s.Z (xgamma x) a
        + (match s.reg with
            | some r => ∑ l, r.JH x l a * ((r.H x l - r.h0 l) / r.h1 l ^ 2)
            | none => 0)
        + (match s.gprior with
            | some g => (x a - g.1 a) / g.2 a ^ 2
            | none => 0)) := by
  have hR : ∀ (i : Fin m) (j : Fin (n i)),
      s.Y i j * Real.sqrt (s.w i j) - s.F (xbeta x) i j * Real.sqrt (s.w i j)
      = (s.Y i j - s.F (xbeta x) i j) * Real.sqrt (s.w i j) := fun i j => by ring
  refine ⟨fun h => ⟨?_, ?_⟩, fun h => ⟨?_, ?_⟩⟩
  · simp only [LimeTr.objective, LimeTr.Yeff, LimeTr.Feff, LimeTr.Zeff, LimeTr.Veff,
      if_pos h, hR, objectiveCore]
  · simp only [LimeTr.gradient, LimeTr.Yeff, LimeTr.Feff, LimeTr.JFeff, LimeTr.Zeff,
      LimeTr.Veff, if_pos h, hR, gradientCore]
  · simp only [LimeTr.objective, LimeTr.Yeff, LimeTr.Feff, LimeTr.Zeff, LimeTr.Veff,
      if_neg h, objectiveCore]
  · simp only [LimeTr.gradient, LimeTr.Yeff, LimeTr.Feff, LimeTr.JFeff, LimeTr.Zeff,
      LimeTr.Veff, if_neg h, gradientCore]

/-- Witness for C3 at the concrete trimmed model. -/
theorem trimming_scaling_witness :
    exModelTrim.use_trimming ∧
    exModelTrim.objective (fun _ => 1) =
      objectiveCore
        (fun i j => (exModelTrim.Y i j -
            exModelTrim.F (xbeta ((fun _ => 1) : Fin (1 + 1) → ℝ)) i j) *
          Real.sqrt (exModelTrim.w i j))
        (fun i j => exModelTrim.V i j ^ exModelTrim.w i j)
        (fun i j l => exModelTrim.Z i j l * Real.sqrt (exModelTrim.w i j))
        (xgamma ((fun _ => 1) : Fin (1 + 1) → ℝ)) + 0 + 0 := by
  have ht : exModelTrim.use_trimming := by
    constructor <;> norm_num [exModelTrim, LimeTr.init]
  have h := ((trimming_scaling exModelTrim (fun _ => 1)).1 ht).1
  refine ⟨ht, ?_⟩
  rw [h]
  norm_num [exModelTrim, LimeTr.init]

/-- `objectiveTrimming` decomposes into independent per-observation terms plus the
constant `0.5·N·log(2π)`: there is no cross-observation coupling. -/
theorem objectiveTrimming_decomp {kb : ℕ} {ι : Type} (s : LimeTr m n kb kg ι)
    (w : ∀ i, Fin (n i) → ℝ) :
    s.objectiveTrimming w =
      (∑ c : Obs m n, obsTerm s c (w c.1 c.2))
        + 0.5 * (Ntot n : ℝ) * Real.log (2 * Real.pi) := by
  simp only [LimeTr.objectiveTrimming, obsTerm]
  rw [sum_obs fun c : Obs m n =>
    0.5 * ((s.Y c.1 c.2 - s.F s.beta c.1 c.2) ^ 2 * w c.1 c.2 /
        (s.V c.1 c.2 ^ w c.1 c.2 +
          (∑ l, s.Z c.1 c.2 l ^ 2 * s.gamma l) * w c.1 c.2))
      + 0.5 * Real.log (s.V c.1 c.2 ^ w c.1 c.2 +
          (∑ l, s.Z c.1 c.2 l ^ 2 * s.gamma l) * w c.1 c.2)]
  simp only [Finset.sum_add_distrib, ← Finset.mul_sum]
  ring

/-- C4: for nonnegative weights (with `S > 0` and `γ ≥ 0`), the analytic
`gradientTrimming(w)` is, componentwise and exactly, the derivative of
`objectiveTrimming` at `w`: with `t = (Z²)·γ`, `r = (Y−F(β))²`, `v = V^w`,
`d = v + t·w`, the component at observation `(i, j)` equals
`0.5·r·v·(1−log v)/d² + 0.5·(t + v·log V)/d`, and each component depends on its own
observation only (no cross-observation coupling). -/
theorem gradientTrimming_isDeriv {kb : ℕ} {ι : Type} (s : LimeTr m n kb kg ι)
    (w : ∀ i, Fin (n i) → ℝ) (i : Fin m) (j : Fin (n i))
    (hS : ∀ i' j', 0 < s.S i' j') (hγ : ∀ l, 0 ≤ s.gamma l)
    (hw : ∀ i' j', 0 ≤ w i' j') :
    s.gradientTrimming w i j =
      0.5 * (s.Y i j - s.F s.beta i j) ^ 2 * s.V i j ^ w i j *
          (1 - Real.log (s.V i j ^ w i j)) /
          (s.V i j ^ w i j + (∑ l, s.Z i j l ^ 2 * s.gamma l) * w i j) ^ 2
        + 0.5 * ((∑ l, s.Z i j l ^ 2 * s.gamma l) +
            s.V i j ^ w i j * Real.log (s.V i j)) /
          (s.V i j ^ w i j + (∑ l, s.Z i j l ^ 2 * s.gamma l) * w i j) ∧
    HasDerivAt
      (fun u => s.objectiveTrimming fun i' j' =>
        if (⟨i', j'⟩ : Obs m n) = ⟨i, j⟩ then u else w i' j')
      (s.gradientTrimming w i j) (w i j) := by
  constructor
  · rfl
  · have hb : 0 < s.V i j := pow_pos (hS i j) 2
    have ht0 : 0 ≤ ∑ l, s.Z i j l ^ 2 * s.gamma l :=
      Finset.sum_nonneg fun l _ => mul_nonneg (sq_nonneg _) (hγ l)
    have hu0 : 0 ≤ w i j := hw i j
    have hv : 0 < s.V i j ^ w i j := Real.rpow_pos_of_pos hb _
    have hd0 : s.V i j ^ w i j + (∑ l, s.Z i j l ^ 2 * s.gamma l) * w i j ≠ 0 :=
      (add_pos_of_pos_of_nonneg hv (mul_nonneg ht0 hu0)).ne'
    have hfun : (fun u => s.objectiveTrimming fun i' j' =>
        if (⟨i', j'⟩ : Obs m n) = ⟨i, j⟩ then u else w i' j')
        = fun u => (∑ c : Obs m n,
            obsTerm s c (if c = ⟨i, j⟩ then u else w c.1 c.2))
          + 0.5 * (Ntot n : ℝ) * Real.log (2 * Real.pi) := by
      funext u
      rw [objectiveTrimming_decomp]
    rw [hfun]
    apply HasDerivAt.add_const
    have hdd : HasDerivAt
        (fun u => s.V i j ^ u + (∑ l, s.Z i j l ^ 2 * s.gamma l) * u)
        (s.V i j ^ w i j * Real.log (s.V i j) + ∑ l, s.Z i j l ^ 2 * s.gamma l)
        (w i j) := by
      have h1 := (Real.hasStrictDerivAt_const_rpow hb (w i j)).hasDerivAt
      have h2 : HasDerivAt (fun u : ℝ => (∑ l, s.Z i j l ^ 2 * s.gamma l) * u)
          (∑ l, s.Z i j l ^ 2 * s.gamma l) (w i j) := by
        simpa using (hasDerivAt_id (w i j)).const_mul (∑ l, s.Z i j l ^ 2 * s.gamma l)
      exact h1.add h2
    have hnum : HasDerivAt (fun u : ℝ => (s.Y i j - s.F s.beta i j) ^ 2 * u)
        ((s.Y i j - s.F s.beta i j) ^ 2) (w i j) := by
      simpa using (hasDerivAt_id (w i j)).const_mul ((s.Y i j - s.F s.beta i j) ^ 2)
    have hq := hnum.div hdd hd0
    have hlog := hdd.log hd0
    have hθ := (hq.const_mul (0.5 : ℝ)).add (hlog.const_mul (0.5 : ℝ))
    have hder : HasDerivAt (fun u => obsTerm s ⟨i, j⟩ u)
        (s.gradientTrimming w i j) (w i j) := by
      have heq : (0.5 : ℝ) * (((s.Y i j - s.F s.beta i j) ^ 2 *
            (s.V i j ^ w i j + (∑ l, s.Z i j l ^ 2 * s.gamma l) * w i j) -
            (s.Y i j - s.F s.beta i j) ^ 2 * w i j *
              (s.V i j ^ w i j * Real.log (s.V i j) +
                ∑ l, s.Z i j l ^ 2 * s.gamma l)) /
            (s.V i j ^ w i j + (∑ l, s.Z i j l ^ 2 * s.gamma l) * w i j) ^ 2)
          + 0.5 * ((s.V i j ^ w i j * Real.log (s.V i j) +
              ∑ l, s.Z i j l ^ 2 * s.gamma l) /
            (s.V i j ^ w i j + (∑ l, s.Z i j l ^ 2 * s.gamma l) * w i j))
          = s.gradientTrimming w i j := by
        simp only [LimeTr.gradientTrimming]
        rw [Real.log_rpow hb]
        ring
      rw [← heq]
      exact hθ
    have hsum : HasDerivAt
        (fun u => ∑ c : Obs m n, obsTerm s c (if c = ⟨i, j⟩ then u else w c.1 c.2))
        (∑ c : Obs m n,
          if c = ⟨i, j⟩ then s.gradientTrimming w i j else 0) (w i j) := by
      apply HasDerivAt.sum
      intro c _
      by_cases hc : c = ⟨i, j⟩
      · subst hc
        simp only [if_pos rfl]
        exact hder
      · simp only [if_neg hc]
        exact hasDerivAt_const _ _
    have hif : (∑ c : Obs m n,
        if c = ⟨i, j⟩ then s.gradientTrimming w i j else 0)
        = s.gradientTrimming w i j := by
      rw [Finset.sum_ite_eq' Finset.univ (⟨i, j⟩ : Obs m n)
        fun _ => s.gradientTrimming w i j]
      simp
    rw [← hif]
    exact hsum

/-- Witness for C4 at the concrete trimmed model, observation `(0, 0)`, zero
weights. -/
theorem gradientTrimming_isDeriv_witness :
    (∀ i' j', 0 < exModelTrim.S i' j') ∧ (∀ l, 0 ≤ exModelTrim.gamma l) ∧
    HasDerivAt
      (fun u => exModelTrim.objectiveTrimming fun i' j' =>
        if (⟨i', j'⟩ : Obs 2 exN) = ⟨0, Fin.mk 0 (by simp [exN])⟩ then u
        else (0 : ℝ))
      (exModelTrim.gradientTrimming (fun _ _ => 0) 0 (Fin.mk 0 (by simp [exN])))
      0 := by
  have hS : ∀ i' j', 0 < exModelTrim.S i' j' := fun i' j' => by
    norm_num [exModelTrim, LimeTr.init]
  have hγ : ∀ l, 0 ≤ exModelTrim.gamma l := fun l => by
    norm_num [exModelTrim, LimeTr.init]
  exact ⟨hS, hγ,
    (gradientTrimming_isDeriv exModelTrim (fun _ _ => 0) 0
      (Fin.mk 0 (by simp [exN])) hS hγ (fun _ _ => le_refl 0)).2⟩

end LimeTrVerif

